import Mathlib

/-!
Shallow embedding of the time-point ledger of `src/timesheet.rs`.

Wall-clock times are modelled at minute precision as `Nat` minutes since
midnight (the program only ever reads, formats, parses and compares times at
minute granularity through the format string given by TIME_FORMAT).
Durations are `Int` minutes (the difference `next.time - prev.time` of the
Rust `time::Duration` may be negative).  Rust `Vec` is `List`, `usize`
subtraction is saturating and so matches `Nat` subtraction, and the
`BTreeMap` accumulator of `grouped_times` is a key-sorted association list.
-/

namespace Tracc

/-- `struct TimePoint { text: String, time: Time }` from timesheet.rs. -/
structure TimePoint where
  text : String
  time : Nat
deriving Repr, DecidableEq

/-- `struct TimeSheet { times, selected, register }` from timesheet.rs. -/
structure TimeSheet where
  times : List TimePoint
  selected : Nat
  register : Option TimePoint
deriving Repr, DecidableEq

/-- `const PAUSE_TEXTS: [&str; 3]` from timesheet.rs. -/
def PAUSE_TEXTS : List String := ["lunch", "mittag", "pause"]

/-- A decimal digit character, `48 = '0'`. -/
def digit (n : Nat) : Char := Char.ofNat (48 + n)

/-- Zero-padded two-digit decimal rendering, as produced by the `%H` and
`%M` directives for the in-range values (hour less than 24, minute less
than 60) the program feeds them. -/
def fmt2 (n : Nat) : List Char := [digit (n / 10), digit (n % 10)]

/-- `time.format(TIME_FORMAT)` with `TIME_FORMAT = "%H:%M"`. -/
def fmtTime (t : Nat) : String := String.mk (fmt2 (t / 60) ++ ':' :: fmt2 (t % 60))

/-- `TimePoint::new`: capture the clock (passed here as the explicit `now`
argument) and build the display text as timestamp prefix plus label. -/
def TimePoint.new (now : Nat) (text : String) : TimePoint :=
  { text := "[" ++ fmtTime now ++ "] " ++ text, time := now }

/-- Rust `str::splitn(2, " ")` on the character list: split at the first
space, if any, keeping everything after it intact. -/
def splitFirstSpaceAux : List Char → Option (List Char × List Char)
  | [] => none
  | c :: rest =>
    if c = ' ' then some ([], rest)
    else (splitFirstSpaceAux rest).map (fun p => (c :: p.1, p.2))

/-- `text.splitn(2, " ")` as (first part, optional remainder): the
remainder is `none` exactly when the collected parts number fewer than 2. -/
def splitFirstSpace (s : String) : String × Option String :=
  match splitFirstSpaceAux s.data with
  | none => (s, none)
  | some p => (String.mk p.1, some (String.mk p.2))

/-- `text.splitn(2, " ").last().unwrap()` as used in `grouped_times`:
the part after the first space, or the whole text when it has no space. -/
def lastPart (s : String) : String :=
  match splitFirstSpace s with
  | (_, some r) => r
  | (_, none) => s

/-- `parts[0].replace('[', "").replace(']', "")`. -/
def stripBrackets (s : String) : String :=
  String.mk (s.data.filter (fun c => c != '[' && c != ']'))

/-- Value of one ASCII digit character medium, failing on non-digits. -/
def decodeDigit (c : Char) : Option Nat :=
  if 48 ≤ c.toNat && c.toNat ≤ 57 then some (c.toNat - 48) else none

/-- `Time::parse(s, "%H:%M")` at minute precision: a zero-padded
two-digit hour below 24, a colon, and a zero-padded two-digit minute
below 60; anything else fails (yielding `none`, never an error). -/
def parseTime (s : String) : Option Nat :=
  match s.data with
  | [h1, h2, sep, m1, m2] =>
    if sep = ':' then
      match decodeDigit h1, decodeDigit h2, decodeDigit m1, decodeDigit m2 with
      | some a, some b, some c, some d =>
        if 10 * a + b < 24 && 10 * c + d < 60 then
          some (60 * (10 * a + b) + (10 * c + d))
        else none
      | _, _, _, _ => none
    else none
  | _ => none

/-- The parse contract of the display text, as executed by the commit
logic of `normal_mode` (lines 141 to 153 of timesheet.rs): split at the
first space, then parse the bracket-stripped first part as a time; the
remainder is the label. -/
def parseDisplay (t : String) : Option (Nat × String) :=
  match splitFirstSpace t with
  | (_, none) => none
  | (p, some rest) => (parseTime (stripBrackets p)).map (fun tm => (tm, rest))

/-- Index of the first occurrence of `c`. -/
def firstIdx (c : Char) : List Char → Option Nat
  | [] => none
  | d :: rest => if d = c then some 0 else (firstIdx c rest).map (· + 1)

/-- Index of the last occurrence of `c`. -/
def lastIdx (c : Char) (l : List Char) : Option Nat :=
  (firstIdx c l.reverse).map (fun i => l.length - 1 - i)

/-- `effective_text` of timesheet.rs: the Rust regular expression
`\((.*)\)` matches starting at the first opening parenthesis that is
followed by a closing one, and the greedy group extends to the last
closing parenthesis of the string; on a match only the inner content is
kept, otherwise the text is returned unchanged. -/
def effective_text (s : String) : String :=
  match firstIdx '(' s.data, lastIdx ')' s.data with
  | some i, some j =>
    if i < j then String.mk ((s.data.drop (i + 1)).take (j - i - 1)) else s
  | _, _ => s

/-- The adjacent-pair pass of `grouped_times` (`tuple_windows` plus the
`map`): for each adjacent pair, the label of the earlier entry after
stripping its timestamp prefix, with the signed minute difference of the
two times. -/
def windowPairs : List TimePoint → List (String × Int)
  | a :: b :: rest =>
    (lastPart a.text, (b.time : Int) - (a.time : Int)) :: windowPairs (b :: rest)
  | _ => []

/-- The `(label, duration)` pairs of `grouped_times` before the fold and
before pause filtering: entries chained with the fresh sentinel
`TimePoint::new("end")` taken at clock value `now`. -/
def rawPairs (now : Nat) (s : TimeSheet) : List (String × Int) :=
  windowPairs (s.times ++ [TimePoint.new now "end"])

/-- Lexicographic order on character lists, the `Ord` of Rust strings
restricted to the ASCII labels this program handles. -/
def ltChars : List Char → List Char → Bool
  | [], [] => false
  | [], _ :: _ => true
  | _ :: _, [] => false
  | a :: as, b :: bs =>
    if a.toNat < b.toNat then true
    else if b.toNat < a.toNat then false
    else ltChars as bs

/-- The key order of the `BTreeMap`. -/
def ltStr (a b : String) : Bool := ltChars a.data b.data

/-- `*map.entry(key).or_insert_with(Duration::zero) += duration` on a
key-sorted association list, the model of the `BTreeMap` accumulator. -/
def addEntry : List (String × Int) → String → Int → List (String × Int)
  | [], k, d => [(k, d)]
  | (k2, d2) :: rest, k, d =>
    if k = k2 then (k2, d2 + d) :: rest
    else if ltStr k k2 then (k, d) :: (k2, d2) :: rest
    else (k2, d2) :: addEntry rest k d

/-- `TimeSheet::grouped_times`: fold the adjacent pairs into the
key-sorted map under `effective_text`, then drop pause labels. -/
def grouped_times (now : Nat) (s : TimeSheet) : List (String × Int) :=
  ((rawPairs now s).foldl (fun m p => addEntry m (effective_text p.1) p.2) []).filter
    (fun p => !(PAUSE_TEXTS.contains p.1))

/-- `format_duration`: whole hours (truncated), a colon, and the
zero-padded whole minutes floored at 1 and reduced mod 60. -/
def format_duration (m : Int) : String :=
  (toString (m.tdiv 60)) ++ ":" ++
    ((if (max m 1).tmod 60 < 10 then "0" else "") ++ toString ((max m 1).tmod 60))

/-- `TimeSheet::sum_as_str`: total of the grouped (pause-filtered)
durations, formatted. -/
def sum_as_str (now : Nat) (s : TimeSheet) : String :=
  format_duration ((grouped_times now s).foldl (fun tot p => tot + p.2) 0)

/-- The default `TimePoint` used for the (never taken) out-of-range case
of an index access that would panic in Rust. -/
def dfltTP : TimePoint := { text := "", time := 0 }

/-- Comparison key of `self.times.sort_by_key(|t| t.time)`. -/
def timeLe (a b : TimePoint) : Bool := decide (a.time ≤ b.time)

/-- Modelled from the spec: `remove_current` lives in `listview.rs`,
which is not among the sources; section 4.2 describes it as "delete
current entry into the register (cut)", and the section 3 invariants add
that on deletion of the last remaining entry the list "is replaced, never
left length-0" (with a fresh default entry, a `TimePoint::new` of the
empty label).  The selection itself is adjusted by the callers. -/
def remove_current (now : Nat) (s : TimeSheet) : TimeSheet :=
  let removed := s.times.getD s.selected dfltTP
  let rest := s.times.eraseIdx s.selected
  { s with
    times := if rest.isEmpty then [TimePoint.new now ""] else rest,
    register := some removed }

/-- The deletion step shared by the commit path of `normal_mode`
(`self.remove_current(); self.selected = self.selected.saturating_sub(1)`)
and, per the section 3 invariant "after deletion it is clamped to
max(0, old_selected - 1)", by the generic cut operation. -/
def delete_current (now : Nat) (s : TimeSheet) : TimeSheet :=
  let s2 := remove_current now s
  { s2 with selected := s2.selected - 1 }

/-- `TimeSheet::normal_mode` (the commit hook): split the selected entry
text at the first space; with no remainder, delete the entry and clamp
the selection; otherwise re-parse the bracket-stripped first part as a
time (keeping the old time on failure), rebuild the display text from
the resulting time and the label remainder, and re-sort by time. -/
def normal_mode (now : Nat) (s : TimeSheet) : TimeSheet :=
  let cur := s.times.getD s.selected dfltTP
  match splitFirstSpace cur.text with
  | (_, none) => delete_current now s
  | (p, some lab) =>
    let t := (parseTime (stripBrackets p)).getD cur.time
    let cur2 : TimePoint := { text := "[" ++ fmtTime t ++ "] " ++ lab, time := t }
    { s with times := (s.times.set s.selected cur2).mergeSort timeLe }

/-- `TimeSheet::append_to_current`: push one character onto the selected
entry text. -/
def append_to_current (c : Char) (s : TimeSheet) : TimeSheet :=
  let cur := s.times.getD s.selected dfltTP
  { s with times := s.times.set s.selected { cur with text := cur.text.push c } }

/-- `TimeSheet::backspace`: pop the last character of the selected entry
text. -/
def backspace (s : TimeSheet) : TimeSheet :=
  let cur := s.times.getD s.selected dfltTP
  { s with times := s.times.set s.selected { cur with text := cur.text.dropRight 1 } }

/-- Modelled from the spec: the selection moves of `listview.rs`
(section 4.2, "move selection up/down (clamped to bounds)"). -/
def selection_up (s : TimeSheet) : TimeSheet :=
  { s with selected := s.selected - 1 }

/-- Modelled from the spec: downward selection move clamped to bounds. -/
def selection_down (s : TimeSheet) : TimeSheet :=
  { s with selected := min (s.selected + 1) (s.times.length - 1) }

/-- Modelled from the spec: paste of `listview.rs` (section 4.2, "insert
the register contents as a new entry at/after selection (paste),
clearing the register"). -/
def paste (s : TimeSheet) : TimeSheet :=
  match s.register with
  | none => s
  | some r =>
    { s with
      times := s.times.take (s.selected + 1) ++ r :: s.times.drop (s.selected + 1),
      register := none }

/-- The structural invariant of section 3: a non-empty ledger and an
in-bounds selection. -/
def Inv (s : TimeSheet) : Prop := s.times ≠ [] ∧ s.selected < s.times.length

/-- One key-event step of the edit loop: a generic list operation of the
edit-mode capability, an in-edit text mutation, or a commit. -/
inductive Step : TimeSheet → TimeSheet → Prop
  | up (s : TimeSheet) : Step s (selection_up s)
  | down (s : TimeSheet) : Step s (selection_down s)
  | cut (now : Nat) (s : TimeSheet) : Step s (delete_current now s)
  | pasteReg (s : TimeSheet) : Step s (paste s)
  | append (c : Char) (s : TimeSheet) : Step s (append_to_current c s)
  | back (s : TimeSheet) : Step s (backspace s)
  | commit (now : Nat) (s : TimeSheet) : Step s (normal_mode now s)

/-- States of `open_or_create` followed by any number of edit-loop
steps: the initial ledger is the loaded non-empty list, or the fresh
single "start" entry when loading fails, with selection 0 and an empty
register. -/
inductive Reachable : TimeSheet → Prop
  | init (l : List TimePoint) (h : l ≠ []) :
      Reachable { times := l, selected := 0, register := none }
  | step (s s2 : TimeSheet) : Reachable s → Step s s2 → Reachable s2

/-- Non-decreasing by the `time` field. -/
def timeSorted (l : List TimePoint) : Prop :=
  List.Pairwise (fun a b => a.time ≤ b.time) l

/-! ### Concrete inputs used by the scenario theorems -/

/-- The sheet of the end-to-end scenario of section 8: entries at 09:00
"start", 09:30 "dev", 12:00 "lunch", 13:00 "dev". -/
def sheet3 : TimeSheet :=
  { times := [
      { text := "[09:00] start", time := 540 },
      { text := "[09:30] dev", time := 570 },
      { text := "[12:00] lunch", time := 720 },
      { text := "[13:00] dev", time := 780 }],
    selected := 0, register := none }

/-- An unsorted three-entry sheet whose selected entry has no label part:
the commit takes the deletion branch and never re-sorts. -/
def cexUnsorted : TimeSheet :=
  { times := [
      { text := "x", time := 0 },
      { text := "b", time := 600 },
      { text := "a", time := 480 }],
    selected := 0, register := none }

/-- A singleton sheet whose only entry has no label part. -/
def cexSingleton : TimeSheet :=
  { times := [{ text := "x", time := 0 }], selected := 0, register := none }

/-- A two-entry sheet whose selected entry has no label part. -/
def wsheetDel : TimeSheet :=
  { times := [
      { text := "x", time := 300 },
      { text := "[08:00] a", time := 480 }],
    selected := 0, register := none }

/-- The fresh startup sheet seeded with one "start" entry at 09:00. -/
def wsheetFresh : TimeSheet :=
  { times := [TimePoint.new 540 "start"], selected := 0, register := none }

/-- A sheet whose selected entry has a label part but an unparsable
timestamp part. -/
def wsheetBadTime : TimeSheet :=
  { times := [{ text := "[xx] foo", time := 300 }], selected := 0, register := none }

set_option maxRecDepth 4000

/-! ### C3 -/

/-- C3: on the scenario sheet with the sentinel at 17:00, grouping
yields exactly the 390-minute "dev" bucket and the 30-minute "start"
bucket (the "lunch" bucket is dropped as a pause), the merged "dev"
bucket formats as "6:30", and `sum_as_str` returns "7:00". -/
theorem end_to_end_scenario :
    grouped_times 1020 sheet3 = [("dev", 390), ("start", 30)]
    ∧ format_duration 390 = "6:30"
    ∧ sum_as_str 1020 sheet3 = "7:00" := by
  refine ⟨by decide, by decide, by decide⟩

/-! ### C8 -/

/-- C8: `format_duration` renders 125 minutes as "2:05", 301 minutes as
"5:01", and a zero-length duration as "0:01" rather than "0:00". -/
theorem format_duration_examples :
    format_duration 125 = "2:05"
    ∧ format_duration 301 = "5:01"
    ∧ format_duration 0 = "0:01" := by
  refine ⟨by decide, by decide, by decide⟩

/-! ### C9 -/

/-- C9: the override extraction on the raw label "(quick note) meeting"
produces the effective grouping label "quick note". -/
theorem override_extraction :
    effective_text "(quick note) meeting" = "quick note" := by decide

/-! ### C1, counterexample -/

/-- C1 fails as stated: on `cexUnsorted` the commit takes the deletion
branch, which never re-sorts, and the resulting entry sequence is not
non-decreasing by time. -/
theorem commit_deletion_unsorted_cex :
    ¬ timeSorted (normal_mode 0 cexUnsorted).times := by
  unfold timeSorted
  decide

/-! ### C4, counterexample -/

/-- C4 fails as stated: committing the label-empty single entry of
`cexSingleton` does not decrease the length by one, because the last
remaining entry is replaced by a fresh default entry rather than
removed. -/
theorem empty_label_delete_last_cex :
    (normal_mode 540 cexSingleton).times.length ≠ cexSingleton.times.length - 1 := by
  decide

/-! ### C2: telescoping of the window durations -/

lemma windowPairs_sum (a : TimePoint) (l : List TimePoint) :
    ((windowPairs (a :: l)).map Prod.snd).sum = ((l.getLastD a).time : Int) - a.time := by
  induction l generalizing a with
  | nil => simp [windowPairs]
  | cons b l ih =>
    simp only [windowPairs, List.map_cons, List.sum_cons, ih b, List.getLastD_cons]
    ring

/-- C2: for a non-empty ledger the window durations telescope: the sum of
all adjacent (label, duration) pairs, taken before pause filtering,
equals the sentinel time minus the time of the first entry. -/
theorem duration_conservation (now : Nat) (s : TimeSheet) (h : s.times ≠ []) :
    ((rawPairs now s).map Prod.snd).sum
      = ((TimePoint.new now "end").time : Int) - ((s.times.getD 0 dfltTP).time : Int) := by
  obtain ⟨times, sel, reg⟩ := s
  obtain ⟨t, rest, rfl⟩ := List.exists_cons_of_ne_nil h
  show ((windowPairs (t :: (rest ++ [TimePoint.new now "end"]))).map Prod.snd).sum = _
  rw [windowPairs_sum, List.getLastD_concat]
  simp [TimePoint.new]

/-- C2 witness: the telescoping identity at the scenario sheet. -/
theorem duration_conservation_witness :
    ((rawPairs 1020 sheet3).map Prod.snd).sum
      = ((TimePoint.new 1020 "end").time : Int) - ((sheet3.times.getD 0 dfltTP).time : Int) :=
  duration_conservation 1020 sheet3 (by decide)

/-! ### Branch equations of `normal_mode` -/

lemma normal_mode_delete (now : Nat) (s : TimeSheet)
    (h : (splitFirstSpace ((s.times.getD s.selected dfltTP).text)).2 = none) :
    normal_mode now s = delete_current now s := by
  rcases hsp : splitFirstSpace ((s.times.getD s.selected dfltTP).text) with ⟨p, lab⟩
  rw [hsp] at h
  cases lab with
  | none => simp only [normal_mode, hsp]
  | some lab => simp at h

lemma normal_mode_update (now : Nat) (s : TimeSheet) (p lab : String)
    (h : splitFirstSpace ((s.times.getD s.selected dfltTP).text) = (p, some lab)) :
    normal_mode now s =
      { s with times := (s.times.set s.selected
          { text := "[" ++ fmtTime ((parseTime (stripBrackets p)).getD
              ((s.times.getD s.selected dfltTP).time)) ++ "] " ++ lab,
            time := (parseTime (stripBrackets p)).getD
              ((s.times.getD s.selected dfltTP).time) }).mergeSort timeLe } := by
  simp only [normal_mode, h]

/-! ### C1 (amended): sortedness after a commit -/

lemma sorted_mergeSort_time (l : List TimePoint) : timeSorted (l.mergeSort timeLe) := by
  have h := @List.sorted_mergeSort TimePoint timeLe
    (fun a b c hab hbc => by simp only [timeLe, decide_eq_true_eq] at *; omega)
    (fun a b => by simp only [timeLe, Bool.or_eq_true, decide_eq_true_eq]; omega)
    l
  exact h.imp (fun hb => by simpa [timeLe] using hb)

lemma timeSorted_delete (now : Nat) (s : TimeSheet) (h : timeSorted s.times) :
    timeSorted (delete_current now s).times := by
  unfold delete_current remove_current
  by_cases he : (s.times.eraseIdx s.selected).isEmpty
  · simp [he, timeSorted]
  · simpa [he] using List.Pairwise.sublist (List.eraseIdx_sublist _ _) h

/-- C1 amended: after a commit through the resort branch (a label part
is present) the entries are non-decreasing by time unconditionally;
after a commit through the deletion branch they are non-decreasing
provided they were non-decreasing before the commit. -/
theorem commit_sorted (now : Nat) (s : TimeSheet) :
    ((splitFirstSpace ((s.times.getD s.selected dfltTP).text)).2 ≠ none →
        timeSorted (normal_mode now s).times)
    ∧ (timeSorted s.times → timeSorted (normal_mode now s).times) := by
  rcases hsp : splitFirstSpace ((s.times.getD s.selected dfltTP).text) with ⟨p, lab⟩
  cases lab with
  | none =>
    refine ⟨fun hne => absurd rfl hne, fun hs => ?_⟩
    rw [normal_mode_delete now s (by rw [hsp])]
    exact timeSorted_delete now s hs
  | some lab =>
    rw [normal_mode_update now s p lab hsp]
    exact ⟨fun _ => sorted_mergeSort_time _, fun _ => sorted_mergeSort_time _⟩

/-- C1 witness: both conjuncts of the amended sortedness statement at
the scenario sheet, whose selected entry has a label part. -/
theorem commit_sorted_witness :
    timeSorted (normal_mode 1020 sheet3).times ∧ timeSorted sheet3.times :=
  ⟨(commit_sorted 1020 sheet3).1 (by decide), by unfold timeSorted; decide⟩

/-! ### C4 (amended): committing an entry with no label part -/

/-- C4 amended: committing an entry with no label part clamps the
selection to max(0, selected - 1) and removes the entry into the
register; the length decreases by exactly 1 whenever more than one entry
is present, while the last remaining entry is instead replaced by a
fresh default entry (the length stays 1). -/
theorem empty_label_delete (now : Nat) (s : TimeSheet)
    (h : s.selected < s.times.length)
    (hl : (splitFirstSpace ((s.times.getD s.selected dfltTP).text)).2 = none) :
    (normal_mode now s).selected = s.selected - 1
    ∧ (1 < s.times.length → (normal_mode now s).times = s.times.eraseIdx s.selected)
    ∧ (s.times.length = 1 → (normal_mode now s).times = [TimePoint.new now ""])
    ∧ (normal_mode now s).register = some (s.times.getD s.selected dfltTP) := by
  rw [normal_mode_delete now s hl]
  refine ⟨rfl, fun hlen => ?_, fun hlen => ?_, rfl⟩
  · have he : (s.times.eraseIdx s.selected).isEmpty = false := by
      rw [Bool.eq_false_iff, Ne, List.isEmpty_iff_length_eq_zero,
        List.length_eraseIdx_of_lt h]
      omega
    simp [delete_current, remove_current, he]
  · have he : (s.times.eraseIdx s.selected).isEmpty = true := by
      rw [List.isEmpty_iff_length_eq_zero, List.length_eraseIdx_of_lt h]
      omega
    simp [delete_current, remove_current, he]

/-- C4 witness: committing the label-empty first entry of a two-entry
sheet removes it, clamps the selection to 0 and shrinks the list to the
remaining entry. -/
theorem empty_label_delete_witness :
    (normal_mode 540 wsheetDel).selected = wsheetDel.selected - 1
    ∧ (1 < wsheetDel.times.length →
        (normal_mode 540 wsheetDel).times = wsheetDel.times.eraseIdx wsheetDel.selected) := by
  have h := empty_label_delete 540 wsheetDel (by decide) (by decide)
  exact ⟨h.1, h.2.1⟩

/-! ### C5: non-emptiness and index validity of reachable states -/

lemma inv_iff (s : TimeSheet) : Inv s ↔ s.selected < s.times.length :=
  ⟨And.right, fun h =>
    ⟨List.ne_nil_of_length_pos (Nat.lt_of_le_of_lt (Nat.zero_le _) h), h⟩⟩

lemma delete_inv (now : Nat) (s : TimeSheet) (hi : Inv s) :
    Inv (delete_current now s) := by
  rw [inv_iff] at hi ⊢
  have hlen : (s.times.eraseIdx s.selected).length = s.times.length - 1 :=
    List.length_eraseIdx_of_lt hi
  by_cases he : (s.times.eraseIdx s.selected).isEmpty = true
  · have h0 : (s.times.eraseIdx s.selected).length = 0 :=
      List.isEmpty_iff_length_eq_zero.mp he
    simp [delete_current, remove_current, he]
    omega
  · have he2 : (s.times.eraseIdx s.selected).isEmpty = false := by
      simpa using he
    have h0 : (s.times.eraseIdx s.selected).length ≠ 0 := fun hz =>
      he (List.isEmpty_iff_length_eq_zero.mpr hz)
    simp [delete_current, remove_current, he2]
    omega

lemma step_inv (s s2 : TimeSheet) (hi : Inv s) (hstep : Step s s2) : Inv s2 := by
  have hsel := (inv_iff s).mp hi
  cases hstep with
  | up =>
    rw [inv_iff]
    simp only [selection_up]
    omega
  | down =>
    rw [inv_iff]
    simp only [selection_down]
    omega
  | cut now => exact delete_inv now s hi
  | pasteReg =>
    rcases hreg : s.register with _ | r
    · simpa [paste, hreg] using hi
    · rw [inv_iff]
      simp only [paste, hreg, List.length_append, List.length_take,
        List.length_cons, List.length_drop]
      omega
  | append c =>
    rw [inv_iff]
    simpa [append_to_current] using hsel
  | back =>
    rw [inv_iff]
    simpa [backspace] using hsel
  | commit now =>
    rcases hsp : splitFirstSpace ((s.times.getD s.selected dfltTP).text) with ⟨p, lab⟩
    cases lab with
    | none =>
      rw [normal_mode_delete now s (by rw [hsp])]
      exact delete_inv now s hi
    | some lab =>
      rw [inv_iff, normal_mode_update now s p lab hsp]
      simpa using hsel

/-- C5: every state reachable from an initial sheet (the loaded
non-empty ledger, or the fresh "start" ledger) through edit-loop steps
has a non-empty entry list and an in-bounds selection; in particular the
commit that deletes the last remaining label-empty entry replaces it and
never leaves length 0. -/
theorem reachable_nonempty_valid (s : TimeSheet) (h : Reachable s) :
    s.times ≠ [] ∧ s.selected < s.times.length := by
  induction h with
  | init l hl => exact ⟨hl, by simpa using List.length_pos.mpr hl⟩
  | step s s2 hr hstep ih => exact step_inv s s2 ih hstep

/-- C5 witness: the invariant at the fresh startup sheet. -/
theorem reachable_nonempty_valid_witness :
    wsheetFresh.times ≠ [] ∧ wsheetFresh.selected < wsheetFresh.times.length :=
  reachable_nonempty_valid wsheetFresh (Reachable.init _ (by decide))

/-! ### C6: timestamp parse failure is fail-soft -/

/-- C6: committing an entry whose label part is present but whose
timestamp part does not parse keeps the previous time, rebuilds the
display text from that time and the new label part, and changes nothing
else (the resulting entries are the old ones with just that one entry
rewritten, re-sorted); no error is raised. -/
theorem parse_failure_keeps_time (now : Nat) (s : TimeSheet) (p lab : String)
    (hsp : splitFirstSpace ((s.times.getD s.selected dfltTP).text) = (p, some lab))
    (hfail : parseTime (stripBrackets p) = none) :
    List.Perm (normal_mode now s).times
      (s.times.set s.selected
        { text := "[" ++ fmtTime ((s.times.getD s.selected dfltTP).time) ++ "] " ++ lab,
          time := (s.times.getD s.selected dfltTP).time })
    ∧ (normal_mode now s).selected = s.selected
    ∧ (normal_mode now s).register = s.register := by
  rw [normal_mode_update now s p lab hsp]
  refine ⟨?_, rfl, rfl⟩
  rw [hfail]
  simp only [Option.getD_none]
  exact List.mergeSort_perm _ _

/-- C6 witness: the fail-soft commit on the sheet whose selected entry
reads "[xx] foo". -/
theorem parse_failure_keeps_time_witness :
    List.Perm (normal_mode 540 wsheetBadTime).times
      (wsheetBadTime.times.set wsheetBadTime.selected
        { text := "[" ++ fmtTime ((wsheetBadTime.times.getD wsheetBadTime.selected dfltTP).time)
            ++ "] " ++ "foo",
          time := (wsheetBadTime.times.getD wsheetBadTime.selected dfltTP).time })
    ∧ (normal_mode 540 wsheetBadTime).selected = wsheetBadTime.selected
    ∧ (normal_mode 540 wsheetBadTime).register = wsheetBadTime.register :=
  parse_failure_keeps_time 540 wsheetBadTime "[xx]" "foo" (by decide) (by decide)

/-! ### C10: in-edit mutations only touch the selected entry text -/

lemma set_text_map_time (l : List TimePoint) (i : Nat) (h : i < l.length) (t2 : String) :
    (l.set i { text := t2, time := (l.getD i dfltTP).time }).map TimePoint.time
      = l.map TimePoint.time := by
  apply List.ext_getElem?
  intro j
  rcases eq_or_ne j i with rfl | hne
  · rw [List.getElem?_map, List.getElem?_map, List.getElem?_set_self (by simpa using h)]
    simp [List.getD_eq_getElem?_getD, List.getElem?_eq_getElem h]
  · rw [List.getElem?_map, List.getElem?_map, List.getElem?_set_ne hne.symm]

/-- C10: `append_to_current` and `backspace` change only the text of the
selected entry: the selection, the register, the time of every entry
(hence the by-time ordering) and every other entry are unchanged. -/
theorem edit_frame (c : Char) (s : TimeSheet) (h : s.selected < s.times.length) :
    (append_to_current c s).selected = s.selected
    ∧ (append_to_current c s).register = s.register
    ∧ (append_to_current c s).times.map TimePoint.time = s.times.map TimePoint.time
    ∧ (∀ i, i ≠ s.selected → (append_to_current c s).times[i]? = s.times[i]?)
    ∧ (backspace s).selected = s.selected
    ∧ (backspace s).register = s.register
    ∧ (backspace s).times.map TimePoint.time = s.times.map TimePoint.time
    ∧ (∀ i, i ≠ s.selected → (backspace s).times[i]? = s.times[i]?) := by
  refine ⟨rfl, rfl, ?_, ?_, rfl, rfl, ?_, ?_⟩
  · exact set_text_map_time _ _ h _
  · exact fun i hi => List.getElem?_set_ne (Ne.symm hi)
  · exact set_text_map_time _ _ h _
  · exact fun i hi => List.getElem?_set_ne (Ne.symm hi)

/-! ### C7: display text round trip -/

lemma aux_no_space (l pre : List Char) (h : ∀ c ∈ pre, c ≠ ' ') :
    splitFirstSpaceAux (pre ++ ' ' :: l) = some (pre, l) := by
  induction pre with
  | nil => simp [splitFirstSpaceAux]
  | cons c cs ih =>
    have hc : c ≠ ' ' := h c (List.mem_cons_self c cs)
    simp [splitFirstSpaceAux, if_neg hc, ih (fun d hd => h d (List.mem_cons_of_mem c hd))]

lemma digit_props : ∀ k < 10,
    digit k ≠ ' ' ∧ (digit k != '[') = true ∧ (digit k != ']') = true
      ∧ decodeDigit (digit k) = some k := by decide

lemma new_text_data (now : Nat) (label : String) :
    (TimePoint.new now label).text.data
      = ('[' :: (fmt2 (now / 60) ++ ':' :: fmt2 (now % 60)) ++ [']']) ++ ' ' :: label.data := by
  simp [TimePoint.new, fmtTime]

lemma new_split (now : Nat) (label : String) (h : now < 1440) :
    splitFirstSpace ((TimePoint.new now label).text)
      = (String.mk ('[' :: (fmt2 (now / 60) ++ ':' :: fmt2 (now % 60)) ++ [']']),
          some label) := by
  unfold splitFirstSpace
  rw [new_text_data, aux_no_space]
  refine List.forall_mem_cons.mpr ⟨by decide, ?_⟩
  refine List.forall_mem_append.mpr ⟨List.forall_mem_append.mpr ⟨?_, ?_⟩, by decide⟩
  · simp only [fmt2]
    refine List.forall_mem_cons.mpr ⟨(digit_props _ (by omega)).1,
      List.forall_mem_cons.mpr ⟨(digit_props _ (by omega)).1, by simp⟩⟩
  · refine List.forall_mem_cons.mpr ⟨by decide, ?_⟩
    simp only [fmt2]
    refine List.forall_mem_cons.mpr ⟨(digit_props _ (by omega)).1,
      List.forall_mem_cons.mpr ⟨(digit_props _ (by omega)).1, by simp⟩⟩

lemma strip_pre_eq (now : Nat) (h : now < 1440) :
    stripBrackets (String.mk ('[' :: (fmt2 (now / 60) ++ ':' :: fmt2 (now % 60)) ++ [']']))
      = fmtTime now := by
  have p1 := digit_props ((now / 60) / 10) (by omega)
  have p2 := digit_props ((now / 60) % 10) (by omega)
  have p3 := digit_props ((now % 60) / 10) (by omega)
  have p4 := digit_props ((now % 60) % 10) (by omega)
  unfold stripBrackets fmtTime
  congr 1
  simp [fmt2, List.filter, p1.2.1, p1.2.2.1, p2.2.1, p2.2.2.1,
    p3.2.1, p3.2.2.1, p4.2.1, p4.2.2.1]

lemma parse_fmt (now : Nat) (h : now < 1440) : parseTime (fmtTime now) = some now := by
  have p1 := digit_props ((now / 60) / 10) (by omega)
  have p2 := digit_props ((now / 60) % 10) (by omega)
  have p3 := digit_props ((now % 60) / 10) (by omega)
  have p4 := digit_props ((now % 60) % 10) (by omega)
  have e1 : 10 * ((now / 60) / 10) + (now / 60) % 10 = now / 60 := by omega
  have e2 : 10 * ((now % 60) / 10) + (now % 60) % 10 = now % 60 := by omega
  unfold parseTime fmtTime fmt2
  simp only [List.cons_append, List.nil_append, String.data, if_true,
    p1.2.2.2, p2.2.2.2, p3.2.2.2, p4.2.2.2, e1, e2]
  rw [if_pos (by simp only [Bool.and_eq_true, decide_eq_true_eq]; omega)]
  congr 1
  omega

/-- C7: for a label free of the delimiter characters, parsing the
display text built by `TimePoint::new` at a valid wall-clock minute
recovers exactly that minute and exactly the original label. -/
theorem display_roundtrip (label : String) (now : Nat) (h1 : now < 1440)
    (_h2 : ∀ c ∈ label.data, c ≠ '[' ∧ c ≠ ']' ∧ c ≠ '(' ∧ c ≠ ')') :
    parseDisplay ((TimePoint.new now label).text) = some (now, label) := by
  unfold parseDisplay
  rw [new_split now label h1]
  simp only
  rw [strip_pre_eq now h1, parse_fmt now h1]
  rfl

/-- C7 witness: the round trip for the label "meeting" at 09:00. -/
theorem display_roundtrip_witness :
    parseDisplay ((TimePoint.new 540 "meeting").text) = some (540, "meeting") :=
  display_roundtrip "meeting" 540 (by omega) (by decide)

/-- C10 witness: the frame conditions at the scenario sheet. -/
theorem edit_frame_witness :
    (append_to_current 'z' sheet3).times.map TimePoint.time
        = sheet3.times.map TimePoint.time
    ∧ (backspace sheet3).times.map TimePoint.time = sheet3.times.map TimePoint.time
    ∧ (append_to_current 'z' sheet3).times[2]? = sheet3.times[2]? := by
  have h := edit_frame 'z' sheet3 (by decide)
  exact ⟨h.2.2.1, h.2.2.2.2.2.2.1, h.2.2.2.1 2 (by decide)⟩

end Tracc
